import Mathlib

/-!
Verification of the filtering-and-aggregation pipeline of the diabetes
dashboard (`src/app.py`).

The script loads a table of patient records, filters rows by five
categorical multiselect widgets, derives a `comorbidity` column, and
computes group-by means and a Pearson correlation matrix for charts.
We embed the record model and every aggregation shallowly: records are a
structure, the data frame is a `List Record`, numeric columns are real
numbers, and the binary columns keep their integer encoding.
-/

/-- One row of the source table, with the attributes used downstream
(spec §3; columns of `diabetes_clean.csv` read at `app.py:10`). -/
structure Record where
  gender : String
  age : ℝ
  age_group : String
  smoking_history : String
  hypertension : Nat
  heart_disease : Nat
  bmi : ℝ
  HbA1c_level : ℝ
  blood_glucose_level : ℝ
  diabetes : Nat

/-- The user's multiselect state: one set of allowed values per filterable
field (`app.py:14-18`).  `heart_disease` and `hypertension` are selected
over their integer encodings, matching the widget options drawn from the
columns' unique values. -/
structure FilterSelection where
  gender : List String
  age_group : List String
  smoking_history : List String
  heart_disease : List Nat
  hypertension : List Nat

/-- The boolean mask of `app.py:21-27`: a row passes iff its value in each
of the five fields is a member (`isin`) of that field's selection. -/
def matchesFilter (sel : FilterSelection) (r : Record) : Bool :=
  sel.gender.contains r.gender &&
  sel.age_group.contains r.age_group &&
  sel.smoking_history.contains r.smoking_history &&
  sel.heart_disease.contains r.heart_disease &&
  sel.hypertension.contains r.hypertension

/-- The value `filtered_df` (`app.py:21-27`): the subset of rows whose every
filtered field lies in the corresponding selection set. -/
def filtered_df (df : List Record) (sel : FilterSelection) : List Record :=
  df.filter (matchesFilter sel)

/-- The comorbidity classifier of `app.py:81-87`: `np.select` over the
ordered conditions (hypertension=1 ∧ heart_disease=1), (hypertension=1),
(heart_disease=1) with choices "Both", "Hypertension Only",
"Heart Disease Only" and default "None"; `np.select` takes the first
condition that holds. -/
def comorbidity (r : Record) : String :=
  if r.hypertension = 1 ∧ r.heart_disease = 1 then "Both"
  else if r.hypertension = 1 then "Hypertension Only"
  else if r.heart_disease = 1 then "Heart Disease Only"
  else "None"

/-- Assigning the derived column (`app.py:87`): each row is paired with
its comorbidity label; all pre-existing fields are carried unchanged. -/
def withComorbidity (df : List Record) : List (Record × String) :=
  df.map (fun r => (r, comorbidity r))

/-- C1: the Row Filter returns exactly the records whose value in each of
the five fields is a member of that field's selection set: every returned
record satisfies all five memberships (soundness) and every record of the
dataset satisfying all five memberships is returned (completeness). -/
theorem filtered_df_sound_complete (df : List Record) (sel : FilterSelection)
    (r : Record) :
    r ∈ filtered_df df sel ↔
      r ∈ df ∧ r.gender ∈ sel.gender ∧ r.age_group ∈ sel.age_group ∧
      r.smoking_history ∈ sel.smoking_history ∧
      r.heart_disease ∈ sel.heart_disease ∧
      r.hypertension ∈ sel.hypertension := by
  simp [filtered_df, matchesFilter, List.mem_filter, and_assoc]

/-- C2: the comorbidity classifier is total and mutually exclusive: each
record gets exactly one of the four labels, by first-match-wins over the
ordered predicates; a record with both conditions 1 is always "Both". -/
theorem comorbidity_total_exclusive (r : Record) :
    (comorbidity r ∈ ["Both", "Hypertension Only", "Heart Disease Only", "None"]) ∧
    (r.hypertension = 1 ∧ r.heart_disease = 1 → comorbidity r = "Both") ∧
    (r.hypertension = 1 ∧ r.heart_disease ≠ 1 → comorbidity r = "Hypertension Only") ∧
    (r.hypertension ≠ 1 ∧ r.heart_disease = 1 → comorbidity r = "Heart Disease Only") ∧
    (r.hypertension ≠ 1 ∧ r.heart_disease ≠ 1 → comorbidity r = "None") := by
  unfold comorbidity
  rcases Decidable.em (r.hypertension = 1) with h1 | h1 <;>
    rcases Decidable.em (r.heart_disease = 1) with h2 | h2 <;>
    simp [h1, h2]

lemma filtered_df_nil_of_empty_field (df : List Record) (sel : FilterSelection)
    (h : sel.gender = [] ∨ sel.age_group = [] ∨ sel.smoking_history = [] ∨
         sel.heart_disease = [] ∨ sel.hypertension = []) :
    filtered_df df sel = [] := by
  have : ∀ r ∈ df, ¬ (matchesFilter sel r = true) := by
    intro r _ hr
    simp [matchesFilter] at hr
    rcases h with h | h | h | h | h <;> rw [h] at hr <;> simp at hr
  simpa [filtered_df, List.filter_eq_nil_iff] using this

/-- C4: if any field's selection set is empty, the filter returns the
empty record set (a normal result, not an error). -/
theorem filtered_df_empty_selection (df : List Record) (sel : FilterSelection)
    (h : sel.gender = [] ∨ sel.age_group = [] ∨ sel.smoking_history = [] ∨
         sel.heart_disease = [] ∨ sel.hypertension = []) :
    filtered_df df sel = [] :=
  filtered_df_nil_of_empty_field df sel h

/-- Witness for C4: a concrete one-row dataset and a selection whose
gender set is empty filter to the empty list. -/
theorem filtered_df_empty_selection_witness :
    filtered_df
      [{ gender := "Female", age := 44, age_group := "25-50",
         smoking_history := "never", hypertension := 0, heart_disease := 0,
         bmi := 27, HbA1c_level := 6, blood_glucose_level := 120,
         diabetes := 0 }]
      { gender := [], age_group := ["25-50"], smoking_history := ["never"],
        heart_disease := [0, 1], hypertension := [0, 1] } = [] :=
  filtered_df_empty_selection _ _ (Or.inl rfl)

/-- C9: the Row Filter preserves relative order: the filtered record set
is a subsequence of the original dataset. -/
theorem filtered_df_sublist (df : List Record) (sel : FilterSelection) :
    (filtered_df df sel).Sublist df :=
  List.filter_sublist df

/-- C10: computing the derived comorbidity column only adds a label to
each row: projecting the labels away gives back the filtered record set
exactly (all pre-existing fields, the number of records and their order
unchanged), and the record count is preserved. -/
theorem withComorbidity_frame (df : List Record) :
    (withComorbidity df).map Prod.fst = df ∧
    (withComorbidity df).length = df.length := by
  refine ⟨?_, by simp [withComorbidity]⟩
  simp only [withComorbidity, List.map_map]
  exact List.map_id df

/-- C8: on the three records with (hypertension, heart_disease) equal to
(1,1), (1,0), (0,0) in that order, the classifier produces exactly
["Both", "Hypertension Only", "None"] in that order. -/
theorem comorbidity_concrete_scenario :
    (withComorbidity
      [{ gender := "Female", age := 50, age_group := "50-65",
         smoking_history := "never", hypertension := 1, heart_disease := 1,
         bmi := 30, HbA1c_level := 7, blood_glucose_level := 160,
         diabetes := 1 },
       { gender := "Male", age := 40, age_group := "25-50",
         smoking_history := "former", hypertension := 1, heart_disease := 0,
         bmi := 25, HbA1c_level := 6, blood_glucose_level := 130,
         diabetes := 0 },
       { gender := "Female", age := 30, age_group := "25-50",
         smoking_history := "never", hypertension := 0, heart_disease := 0,
         bmi := 22, HbA1c_level := 5, blood_glucose_level := 100,
         diabetes := 0 }]).map Prod.snd =
      ["Both", "Hypertension Only", "None"] := by
  simp [withComorbidity, comorbidity]

/-- The group-by-mean aggregator (`app.py:48,55,66,88,113,128`):
`groupby(key)["diabetes"].mean().reset_index()` — one output row per
distinct key value occurring in the input, whose value is the mean of the
`diabetes` column over that group.  Groups with no rows do not occur. -/
def meanByKey {κ : Type} [DecidableEq κ] (k : Record → κ)
    (df : List Record) : List (κ × ℚ) :=
  (df.map k).dedup.map fun v =>
    (v, ((df.filter fun r => k r = v).map fun r => (r.diabetes : ℚ)).sum /
        ((df.filter fun r => k r = v).length : ℚ))

lemma meanByKey_keys {κ : Type} [DecidableEq κ] (k : Record → κ)
    (df : List Record) :
    (meanByKey k df).map Prod.fst = (df.map k).dedup := by
  simp [meanByKey, List.map_map, Function.comp_def]

lemma meanByKey_mem {κ : Type} [DecidableEq κ] {k : Record → κ}
    {df : List Record} {p : κ × ℚ} (hp : p ∈ meanByKey k df) :
    p.1 ∈ df.map k ∧
    p.2 = ((df.filter fun r => k r = p.1).map fun r => (r.diabetes : ℚ)).sum /
          ((df.filter fun r => k r = p.1).length : ℚ) := by
  simp only [meanByKey, List.mem_map] at hp
  obtain ⟨v, hv, rfl⟩ := hp
  exact ⟨List.mem_dedup.mp hv, rfl⟩

lemma sum_diabetes_eq_countP (g : List Record)
    (h01 : ∀ r ∈ g, r.diabetes = 0 ∨ r.diabetes = 1) :
    (g.map fun r => (r.diabetes : ℚ)).sum =
      ((g.countP fun r => r.diabetes = 1 : Nat) : ℚ) := by
  induction g with
  | nil => simp
  | cons a g ih =>
    have ha := h01 a (List.mem_cons_self a g)
    have ih' := ih fun r hr => h01 r (List.mem_cons_of_mem a hr)
    rcases ha with ha | ha <;>
      simp [List.countP_cons, ha, ih', add_comm]

/-- C3: `meanByField(field)` (the single-field group-by means at
`app.py:48,55,66,88`): each distinct field value occurring in the data
appears exactly once; its value is the count of diabetes = 1 records of
the group divided by the group size, hence lies in [0, 1]; values with an
empty group are absent, and every emitted group is non-empty (so no
division by zero occurs). -/
theorem meanByField_spec (df : List Record) (k : Record → String)
    (h01 : ∀ r ∈ df, r.diabetes = 0 ∨ r.diabetes = 1) :
    ((meanByKey k df).map Prod.fst).Nodup ∧
    (∀ v : String, v ∈ (meanByKey k df).map Prod.fst ↔ v ∈ df.map k) ∧
    (∀ p ∈ meanByKey k df,
      0 < (df.filter fun r => k r = p.1).length ∧
      p.2 = (((df.filter fun r => k r = p.1).countP fun r =>
                r.diabetes = 1 : Nat) : ℚ) /
            ((df.filter fun r => k r = p.1).length : ℚ) ∧
      0 ≤ p.2 ∧ p.2 ≤ 1) := by
  refine ⟨?_, ?_, ?_⟩
  · rw [meanByKey_keys]; exact (df.map k).nodup_dedup
  · intro v; rw [meanByKey_keys]; exact List.mem_dedup
  · intro p hp
    obtain ⟨hmem, hval⟩ := meanByKey_mem hp
    obtain ⟨r, hr, hkr⟩ := List.mem_map.mp hmem
    have hrg : r ∈ df.filter fun x => k x = p.1 :=
      List.mem_filter.mpr ⟨hr, by simp [hkr]⟩
    have hlen : 0 < (df.filter fun x => k x = p.1).length :=
      List.length_pos.mpr (List.ne_nil_of_mem hrg)
    have h01g : ∀ x ∈ df.filter fun x => k x = p.1,
        x.diabetes = 0 ∨ x.diabetes = 1 :=
      fun x hx => h01 x (List.mem_filter.mp hx).1
    have hsum := sum_diabetes_eq_countP _ h01g
    have hcle : ((df.filter fun x => k x = p.1).countP fun x =>
        x.diabetes = 1) ≤ (df.filter fun x => k x = p.1).length :=
      List.countP_le_length _
    have hlenq : (0 : ℚ) < ((df.filter fun x => k x = p.1).length : ℚ) := by
      exact_mod_cast hlen
    refine ⟨hlen, by rw [hval, hsum], ?_, ?_⟩
    · rw [hval, hsum]
      exact div_nonneg (by positivity) (le_of_lt hlenq)
    · rw [hval, hsum]
      rw [div_le_one hlenq]
      exact_mod_cast hcle

/-- A concrete healthy record used to instantiate theorems. -/
def wRecA : Record :=
  { gender := "Female", age := 30, age_group := "25-50",
    smoking_history := "never", hypertension := 0, heart_disease := 0,
    bmi := 22, HbA1c_level := 5, blood_glucose_level := 100, diabetes := 0 }

/-- A concrete diabetic record used to instantiate theorems. -/
def wRecB : Record :=
  { gender := "Male", age := 60, age_group := "50-65",
    smoking_history := "current", hypertension := 1, heart_disease := 1,
    bmi := 31, HbA1c_level := 8, blood_glucose_level := 200, diabetes := 1 }

/-- A concrete two-record dataset used to instantiate theorems. -/
def wDf : List Record := [wRecA, wRecB]

lemma wDf_diabetes01 : ∀ r ∈ wDf, r.diabetes = 0 ∨ r.diabetes = 1 := by
  intro r hr
  simp only [wDf] at hr
  rcases List.mem_cons.mp hr with rfl | hr
  · exact Or.inl rfl
  rcases List.mem_cons.mp hr with rfl | hr
  · exact Or.inr rfl
  · exact absurd hr (List.not_mem_nil r)

/-- Witness for C3 on a concrete two-record dataset grouped by
`age_group`. -/
theorem meanByField_spec_witness :
    (∀ r ∈ wDf, r.diabetes = 0 ∨ r.diabetes = 1) ∧
    ((meanByKey (fun r => r.age_group) wDf).map Prod.fst).Nodup :=
  ⟨wDf_diabetes01,
    (meanByField_spec wDf (fun r => r.age_group) wDf_diabetes01).1⟩

/-- C7: `meanByFieldPair(fieldA, fieldB)` (the pair group-bys at
`app.py:113,128`): one row per distinct pair of values occurring in the
data, each pair exactly once; its value is the mean of `diabetes` over
the records with that combination; combinations with zero records are
absent and every emitted combination has a non-empty group. -/
theorem meanByFieldPair_spec (df : List Record) (a b : Record → String) :
    ((meanByKey (fun r => (a r, b r)) df).map Prod.fst).Nodup ∧
    (∀ v : String × String,
      v ∈ (meanByKey (fun r => (a r, b r)) df).map Prod.fst ↔
      v ∈ df.map fun r => (a r, b r)) ∧
    (∀ p ∈ meanByKey (fun r => (a r, b r)) df,
      0 < (df.filter fun r => a r = p.1.1 ∧ b r = p.1.2).length ∧
      p.2 = ((df.filter fun r => a r = p.1.1 ∧ b r = p.1.2).map fun r =>
                (r.diabetes : ℚ)).sum /
            ((df.filter fun r => a r = p.1.1 ∧ b r = p.1.2).length : ℚ)) := by
  refine ⟨?_, ?_, ?_⟩
  · rw [meanByKey_keys]; exact List.nodup_dedup _
  · intro v; rw [meanByKey_keys]; exact List.mem_dedup
  · intro p hp
    obtain ⟨hmem, hval⟩ := meanByKey_mem hp
    have hfe : (df.filter fun r => (a r, b r) = p.1) =
        df.filter fun r => a r = p.1.1 ∧ b r = p.1.2 := by
      apply List.filter_congr
      intro r _
      simp [Prod.ext_iff]
    obtain ⟨r, hr, hkr⟩ := List.mem_map.mp hmem
    have hrg : r ∈ df.filter fun x => (a x, b x) = p.1 :=
      List.mem_filter.mpr ⟨hr, by simp [hkr]⟩
    have hlen : 0 < (df.filter fun x => (a x, b x) = p.1).length :=
      List.length_pos.mpr (List.ne_nil_of_mem hrg)
    rw [hfe] at hval hlen
    exact ⟨hlen, hval⟩


/-- The mean of a numeric column over the filtered rows. -/
noncomputable def colMean (df : List Record) (f : Record → ℝ) : ℝ :=
  (df.map f).sum / df.length

/-- Sum of products of deviations from the column means.  The Pearson
coefficient computed by `corr()` (`app.py:121`) is
`sxy f g / (sqrt (sxy f f) * sqrt (sxy g g))`: the sample-size
normalisations of covariance and standard deviation cancel. -/
noncomputable def sxy (df : List Record) (f g : Record → ℝ) : ℝ :=
  (df.map fun r => (f r - colMean df f) * (g r - colMean df g)).sum

/-- One entry of the Pearson correlation matrix.  When a column is
constant (or the row set has fewer than two rows, which forces both
deviation sums to zero) the library produces NaN; we model the undefined
entry as `none`. -/
noncomputable def corrEntry (df : List Record) (f g : Record → ℝ) :
    Option ℝ :=
  if sxy df f f = 0 ∨ sxy df g g = 0 then none
  else some (sxy df f g / (Real.sqrt (sxy df f f) * Real.sqrt (sxy df g g)))

/-- The four numeric columns of `numeric_cols` (`app.py:120`), in order:
HbA1c_level, blood_glucose_level, bmi, age. -/
def numericCols (i : Fin 4) : Record → ℝ :=
  match i with
  | ⟨0, _⟩ => fun r => r.HbA1c_level
  | ⟨1, _⟩ => fun r => r.blood_glucose_level
  | ⟨2, _⟩ => fun r => r.bmi
  | ⟨3, _⟩ => fun r => r.age

/-- The value `corr_matrix` (`app.py:121`): pairwise Pearson correlation of the
four numeric columns over the filtered rows. -/
noncomputable def corr_matrix (df : List Record) (i j : Fin 4) : Option ℝ :=
  corrEntry df (numericCols i) (numericCols j)

/-- A column takes at least two different values on the row set. -/
def Nonconstant (f : Record → ℝ) (df : List Record) : Prop :=
  ∃ a ∈ df, ∃ b ∈ df, f a ≠ f b

lemma sxy_comm (df : List Record) (f g : Record → ℝ) :
    sxy df f g = sxy df g f := by
  unfold sxy
  congr 1
  apply List.map_congr_left
  intro r _
  ring

lemma sxx_nonneg (df : List Record) (f : Record → ℝ) : 0 ≤ sxy df f f := by
  unfold sxy
  apply List.sum_nonneg
  intro x hx
  obtain ⟨r, _, rfl⟩ := List.mem_map.mp hx
  exact mul_self_nonneg _

lemma sum_eq_zero_forall (l : List ℝ) (h0 : ∀ x ∈ l, 0 ≤ x)
    (hs : l.sum = 0) : ∀ x ∈ l, x = 0 := by
  induction l with
  | nil => simp
  | cons a l ih =>
    have ha := h0 a (List.mem_cons_self a l)
    have hl : 0 ≤ l.sum :=
      List.sum_nonneg fun x hx => h0 x (List.mem_cons_of_mem a hx)
    have hsum : a + l.sum = 0 := by simpa using hs
    intro x hx
    rcases List.mem_cons.mp hx with rfl | hx
    · linarith
    · exact ih (fun y hy => h0 y (List.mem_cons_of_mem a hy))
        (by linarith) x hx

lemma sxx_ne_zero_of_nonconstant (df : List Record) (f : Record → ℝ)
    (h : Nonconstant f df) : sxy df f f ≠ 0 := by
  intro h0
  obtain ⟨a, ha, b, hb, hab⟩ := h
  have hall := sum_eq_zero_forall
    (df.map fun r => (f r - colMean df f) * (f r - colMean df f))
    (fun x hx => by
      obtain ⟨r, _, rfl⟩ := List.mem_map.mp hx
      exact mul_self_nonneg _) h0
  have heq : ∀ r ∈ df, f r = colMean df f := by
    intro r hr
    have hz := hall _ (List.mem_map_of_mem _ hr)
    have := mul_self_eq_zero.mp hz
    linarith
  exact hab ((heq a ha).trans (heq b hb).symm)

lemma corrEntry_comm (df : List Record) (f g : Record → ℝ) :
    corrEntry df f g = corrEntry df g f := by
  unfold corrEntry
  by_cases h1 : sxy df f f = 0
  · simp [h1]
  · by_cases h2 : sxy df g g = 0
    · simp [h2]
    · rw [if_neg (by tauto), if_neg (by tauto), sxy_comm df f g,
        mul_comm (Real.sqrt (sxy df f f)) (Real.sqrt (sxy df g g))]

lemma corrEntry_diag (df : List Record) (f : Record → ℝ)
    (h : sxy df f f ≠ 0) : corrEntry df f f = some 1 := by
  unfold corrEntry
  rw [if_neg (by tauto)]
  rw [Real.mul_self_sqrt (sxx_nonneg df f)]
  rw [div_self h]

lemma corrEntry_nil (f g : Record → ℝ) : corrEntry [] f g = none := by
  simp [corrEntry, sxy]

/-- C5: when the filtered record set is empty — e.g. with an empty gender
selection on any dataset — every downstream aggregation yields a defined,
degenerate value instead of an error: every group-by-mean is the empty
table and every correlation-matrix entry is undefined (the NaN matrix,
modelled as `none`). -/
theorem empty_result_degenerate (df : List Record) (sel : FilterSelection)
    (h : sel.gender = []) :
    filtered_df df sel = [] ∧
    meanByKey (fun r => r.age_group) (filtered_df df sel) = [] ∧
    (∀ k : Record → String, meanByKey k (filtered_df df sel) = []) ∧
    (∀ k : Record → String × String, meanByKey k (filtered_df df sel) = []) ∧
    (∀ i j : Fin 4, corr_matrix (filtered_df df sel) i j = none) := by
  have hnil : filtered_df df sel = [] :=
    filtered_df_nil_of_empty_field df sel (Or.inl h)
  rw [hnil]
  refine ⟨rfl, ?_, ?_, ?_, ?_⟩
  · simp [meanByKey]
  · intro k; simp [meanByKey]
  · intro k; simp [meanByKey]
  · intro i j; exact corrEntry_nil _ _

/-- Witness for C5: a concrete non-empty one-record dataset with the
empty gender selection. -/
theorem empty_result_degenerate_witness :
    ({ gender := [], age_group := ["25-50"], smoking_history := ["never"],
       heart_disease := [0, 1],
       hypertension := [0, 1] } : FilterSelection).gender = [] ∧
    filtered_df wDf
      { gender := [], age_group := ["25-50"], smoking_history := ["never"],
        heart_disease := [0, 1], hypertension := [0, 1] } = [] ∧
    meanByKey (fun r => r.age_group)
      (filtered_df wDf
        { gender := [], age_group := ["25-50"], smoking_history := ["never"],
          heart_disease := [0, 1], hypertension := [0, 1] }) = [] :=
  ⟨rfl,
    (empty_result_degenerate wDf _ rfl).1,
    (empty_result_degenerate wDf _ rfl).2.1⟩

/-- C6: for a non-empty filtered record set whose four numeric columns
are all non-constant, the correlation matrix is symmetric and carries the
defined value 1 at every diagonal entry. -/
theorem corr_matrix_symm_diag (df : List Record) (hne : df ≠ [])
    (hnc : ∀ i : Fin 4, Nonconstant (numericCols i) df) :
    (∀ i j : Fin 4, corr_matrix df i j = corr_matrix df j i) ∧
    (∀ i : Fin 4, corr_matrix df i i = some 1) := by
  refine ⟨fun i j => corrEntry_comm df _ _, fun i => ?_⟩
  exact corrEntry_diag df _ (sxx_ne_zero_of_nonconstant df _ (hnc i))

/-- Witness for C6: the concrete two-record dataset, on which all four
numeric columns take two different values. -/
theorem corr_matrix_symm_diag_witness :
    (wDf ≠ [] ∧ ∀ i : Fin 4, Nonconstant (numericCols i) wDf) ∧
    ((∀ i j : Fin 4, corr_matrix wDf i j = corr_matrix wDf j i) ∧
     (∀ i : Fin 4, corr_matrix wDf i i = some 1)) := by
  have hne : wDf ≠ [] := by simp [wDf]
  have hnc : ∀ i : Fin 4, Nonconstant (numericCols i) wDf := by
    intro i
    fin_cases i <;>
      exact ⟨wRecA, by simp [wDf], wRecB, by simp [wDf],
        by norm_num [numericCols, wRecA, wRecB]⟩
  exact ⟨⟨hne, hnc⟩, corr_matrix_symm_diag wDf hne hnc⟩
